import Mathlib

/-!
Verification development for the signal-detection / backtest / optimization
core of the stock-trade bot (sources: `stocktradebot/indicators.py`,
`stocktradebot/signals.py`, `stocktradebot/bot.py`, `stocktradebot/__main__.py`).

Bars and indicator values are modelled over `ℚ`; pandas float arithmetic is
translated to exact rational arithmetic, with the IEEE special cases
(`x/0 = ±inf`, `0/0 = NaN`, `fillna`) made explicit at the few places the
source relies on them (KDJ zero-range, RSI zero average loss, leading
`min_periods`/rolling windows).  Python keyword-argument call semantics are
modelled explicitly where a call site passes a keyword the callee does not
accept (the `window=` argument of the divergence-detection calls).
-/

set_option maxRecDepth 100000

namespace StockTrade

/-- One OHLC bar: `date` is an ordinal timestamp, prices are rationals.
Mirrors the DataFrame rows (`date`, `high`, `low`, `close`) the core reads. -/
structure Bar where
  date  : ℕ
  high  : ℚ
  low   : ℚ
  close : ℚ
deriving DecidableEq, Repr

/-- `series.iloc[i]` for an in-bounds index; out-of-bounds yields 0 (every
use below is guarded so only in-bounds indices are ever read). -/
def idx (xs : List ℚ) (i : ℕ) : ℚ := xs.getD i 0

/-- `series.iloc[i]` for an `Option`-valued (NaN-able) series. -/
def oidx (xs : List (Option ℚ)) (i : ℕ) : Option ℚ := xs.getD i none

/-- Minimum of a list (0 on the empty list; only used on nonempty windows). -/
def listMin : List ℚ → ℚ
  | [] => 0
  | x :: xs => xs.foldl min x

/-- Maximum of a list (0 on the empty list; only used on nonempty windows). -/
def listMax : List ℚ → ℚ
  | [] => 0
  | x :: xs => xs.foldl max x

/-- Sum of a list of rationals. -/
def listSum (xs : List ℚ) : ℚ := xs.foldl (fun a b => a + b) 0

/-- The rolling window of width `n` ending at index `i`:
elements `i+1-n .. i` of the series. -/
def windowSlice (n : ℕ) (xs : List ℚ) (i : ℕ) : List ℚ :=
  (xs.take (i + 1)).drop (i + 1 - n)

/-- `series.rolling(window=n).min()` at index `i` (`none` = leading NaN). -/
def rollMin (n : ℕ) (xs : List ℚ) (i : ℕ) : Option ℚ :=
  if i + 1 < n then none else some (listMin (windowSlice n xs i))

/-- `series.rolling(window=n).max()` at index `i` (`none` = leading NaN). -/
def rollMax (n : ℕ) (xs : List ℚ) (i : ℕ) : Option ℚ :=
  if i + 1 < n then none else some (listMax (windowSlice n xs i))

/-- `series.rolling(window=n).mean()` at index `i` (`none` = leading NaN). -/
def rollMean (n : ℕ) (xs : List ℚ) (i : ℕ) : Option ℚ :=
  if i + 1 < n then none else some (listSum (windowSlice n xs i) / (n : ℚ))

/-- Tail of `ewm(..., adjust=False).mean()`: given the previous smoothed value
`y`, each step computes `y' = (1-a)*y + a*x`. -/
def emaFrom (a : ℚ) (y : ℚ) : List ℚ → List ℚ
  | [] => []
  | x :: xs =>
    let y2 := (1 - a) * y + a * x
    y2 :: emaFrom a y2 xs

/-- `series.ewm(..., adjust=False).mean()`: seeded by the first value. -/
def ema (a : ℚ) : List ℚ → List ℚ
  | [] => []
  | x :: xs => x :: emaFrom a x xs

/-- Tail of `ewm(alpha=a, adjust=True).mean()` carrying the running weighted
numerator and denominator: `y_i = (Σ_j (1-a)^j x_{i-j}) / (Σ_j (1-a)^j)`. -/
def ewmAdjFrom (a : ℚ) (num den : ℚ) : List ℚ → List ℚ
  | [] => []
  | x :: xs =>
    let num2 := x + (1 - a) * num
    let den2 := 1 + (1 - a) * den
    (num2 / den2) :: ewmAdjFrom a num2 den2 xs

/-- `series.ewm(alpha=a, adjust=True).mean()` (the pandas default `adjust`,
used by `calculate_rsi`). -/
def ewmAdj (a : ℚ) (xs : List ℚ) : List ℚ := ewmAdjFrom a 0 0 xs

/-! ## `TechnicalIndicators.calculate_ma` / `calculate_macd` / `calculate_kdj` -/

/-- `calculate_ma`: simple rolling mean of the closes for one window width;
`none` marks the leading NaN region. -/
def calculate_ma (w : ℕ) (closes : List ℚ) : List (Option ℚ) :=
  (List.range closes.length).map (fun i => rollMean w closes i)

/-- MACD fast line: `dif = ema(close, span=12) - ema(close, span=26)`
(`alpha = 2/(span+1)`). -/
def macdDif (closes : List ℚ) : List ℚ :=
  List.zipWith (fun a b => a - b) (ema (2 / 13) closes) (ema (2 / 27) closes)

/-- MACD signal line: `dea = ema(dif, span=9)`. -/
def macdDea (closes : List ℚ) : List ℚ := ema (2 / 10) (macdDif closes)

/-- MACD histogram: `macd = (dif - dea) * 2`. -/
def macdHist (closes : List ℚ) : List ℚ :=
  List.zipWith (fun a b => (a - b) * 2) (macdDif closes) (macdDea closes)

/-- `calculate_kdj`'s RSV series with `n = 9`:
`rsv = (close - min(low,9)) / (max(high,9) - min(low,9)) * 100`, then
`fillna(50)`.  The leading rolling-NaN region becomes 50; a zero range gives
`0/0 = NaN -> 50` (the close of a zero-range window equals that range value
whenever `low <= close <= high` holds bar-wise, making the numerator 0). -/
def kdjRsv (bars : List Bar) : List ℚ :=
  let lows := bars.map Bar.low
  let highs := bars.map Bar.high
  let closes := bars.map Bar.close
  (List.range bars.length).map (fun i =>
    match rollMin 9 lows i, rollMax 9 highs i with
    | some lo, some hi =>
      if hi = lo then 50 else (idx closes i - lo) / (hi - lo) * 100
    | _, _ => 50)

/-- KDJ K line: `k = rsv.ewm(alpha=1/3, adjust=False).mean()`. -/
def kdjK (bars : List Bar) : List ℚ := ema (1 / 3) (kdjRsv bars)

/-- KDJ D line: `d = k.ewm(alpha=1/3, adjust=False).mean()`. -/
def kdjD (bars : List Bar) : List ℚ := ema (1 / 3) (kdjK bars)

/-- KDJ J line: `j = 3*k - 2*d`. -/
def kdjJ (bars : List Bar) : List ℚ :=
  List.zipWith (fun k d => 3 * k - 2 * d) (kdjK bars) (kdjD bars)

/-! ## `TechnicalIndicators.calculate_rsi` (period = 14) -/

/-- `close.diff()` with the leading NaN coerced to 0, exactly as
`delta.where(delta > 0, 0)` does (`NaN > 0` is false, so index 0 becomes 0
in both the gain and the loss series). -/
def diffs : List ℚ → List ℚ
  | [] => []
  | c :: cs => 0 :: List.zipWith (fun b a => b - a) cs (c :: cs)

/-- `gain = delta.where(delta > 0, 0)`. -/
def gains (closes : List ℚ) : List ℚ :=
  (diffs closes).map (fun d => if 0 < d then d else 0)

/-- `loss = (-delta).where(delta < 0, 0)`. -/
def losses (closes : List ℚ) : List ℚ :=
  (diffs closes).map (fun d => if d < 0 then -d else 0)

/-- `avg_gain = gain.ewm(alpha=1/14, min_periods=14).mean()` at index `i`
(the `min_periods` masking is applied by `rsiAt`, not here). -/
def avgGainAt (closes : List ℚ) (i : ℕ) : ℚ := idx (ewmAdj (1 / 14) (gains closes)) i

/-- `avg_loss = loss.ewm(alpha=1/14, min_periods=14).mean()` at index `i`. -/
def avgLossAt (closes : List ℚ) (i : ℕ) : ℚ := idx (ewmAdj (1 / 14) (losses closes)) i

/-- `rsi = (100 - 100/(1 + avg_gain/avg_loss)).fillna(50)` at index `i`,
with the float special cases made explicit:
indices below `min_periods-1 = 13` are NaN and `fillna` to 50;
`avg_loss = 0` with `avg_gain > 0` gives `rs = +inf`, so `rsi = 100 - 0 = 100`;
`avg_loss = 0 = avg_gain` gives `rs = NaN`, so `fillna` yields 50. -/
def rsiAt (closes : List ℚ) (i : ℕ) : ℚ :=
  if i < 13 then 50
  else
    let g := avgGainAt closes i
    let l := avgLossAt closes i
    if l = 0 then (if g = 0 then 50 else 100)
    else 100 - 100 / (1 + g / l)

/-- The RSI column aligned with the bar series. -/
def rsiList (closes : List ℚ) : List ℚ :=
  (List.range closes.length).map (fun i => rsiAt closes i)

/-! ## `TechnicalIndicators.find_peaks` -/

/-- Body of the peak check at index `i`: the source loop over
`j in range(1, order+1)` clears `is_peak` when
`series[i] <= series[i-j] or series[i] <= series[i+j]`. -/
def isPeakAt (xs : List ℚ) (order i : ℕ) : Bool :=
  (List.range order).all (fun j =>
    !(decide (idx xs i ≤ idx xs (i - (j + 1))) || decide (idx xs i ≤ idx xs (i + (j + 1)))))

/-- Body of the valley check at index `i` (mirror of `isPeakAt` with `>=`). -/
def isValleyAt (xs : List ℚ) (order i : ℕ) : Bool :=
  (List.range order).all (fun j =>
    !(decide (idx xs (i - (j + 1)) ≤ idx xs i) || decide (idx xs (i + (j + 1)) ≤ idx xs i)))

/-- `find_peaks(series, order)`: scans `i in range(order, len - order)` and
returns `(peaks, valleys)` as index lists. -/
def find_peaks (xs : List ℚ) (order : ℕ) : List ℕ × List ℕ :=
  let scan := (List.range xs.length).filter
    (fun i => decide (order ≤ i) && decide (i + order < xs.length))
  (scan.filter (fun i => isPeakAt xs order i),
   scan.filter (fun i => isValleyAt xs order i))

/-! ## `detect_macd_divergence` / `detect_kdj_divergence` -/

/-- Divergence polarity: `top` = "顶背离" (bearish), `bottom` = "底背离"
(bullish). -/
inductive DivKind | top | bottom
deriving DecidableEq, Repr

/-- `DivergenceData` (the dataclass, sans the constant `indicator_name`). -/
structure DivergenceData where
  kind : DivKind
  price_peak1 : ℚ
  price_peak2 : ℚ
  indicator_peak1 : ℚ
  indicator_peak2 : ℚ
  peak1_idx : ℕ
  peak2_idx : ℕ
  strength : ℚ
deriving DecidableEq, Repr

/-- The last two elements `(l[-2], l[-1])` of an index list, when present. -/
def lastTwo (l : List ℕ) : Option (ℕ × ℕ) :=
  match l.reverse with
  | b :: a :: _ => some (a, b)
  | _ => none

/-- Index selection of the bearish ("顶背离") block shared by both
divergence detectors: the two most recent price peaks `p1 < p2`, the two
most recent indicator peaks `m1 < m2` within `[p1-5, p2+5]`, kept only when
price makes a higher high (`price[p1] < price[p2]`) while the indicator
falls (`ind[m2] < ind[m1]`). -/
def detectDivTopIdx (price indS : List ℚ) : Option (ℕ × ℕ × ℕ × ℕ) :=
  let pPeaks := (find_peaks price 3).1
  let iPeaks := (find_peaks indS 3).1
  if 2 ≤ pPeaks.length ∧ 2 ≤ iPeaks.length then
    match lastTwo pPeaks with
    | some (p1, p2) =>
      let inRange := iPeaks.filter (fun m => decide (p1 ≤ m + 5) && decide (m ≤ p2 + 5))
      if 2 ≤ inRange.length then
        match lastTwo inRange with
        | some (m1, m2) =>
          if idx price p1 < idx price p2 ∧ idx indS m2 < idx indS m1 then
            some (p1, p2, m1, m2)
          else none
        | none => none
      else none
    | none => none
  else none

/-- The record the bearish block appends for a selected index quadruple,
with the strength score `min(100, (pricePct + indicatorPct) * mult)`;
reported indices are shifted by `off = len(df) - lookback`. -/
def mkDivTop (price indS : List ℚ) (off : ℕ) (mult : ℚ)
    (q : ℕ × ℕ × ℕ × ℕ) : DivergenceData :=
  match q with
  | (p1, p2, m1, m2) =>
    let priceDiffPct := (idx price p2 - idx price p1) / idx price p1 * 100
    let indDiffPct :=
      if idx indS m1 ≠ 0 then (idx indS m1 - idx indS m2) / |idx indS m1| * 100
      else 0
    { kind := .top
      price_peak1 := idx price p1, price_peak2 := idx price p2
      indicator_peak1 := idx indS m1, indicator_peak2 := idx indS m2
      peak1_idx := p1 + off, peak2_idx := p2 + off
      strength := min 100 ((priceDiffPct + indDiffPct) * mult) }

/-- The bearish block: index selection then record construction. -/
def detectDivTop (price indS : List ℚ) (off : ℕ) (mult : ℚ) : Option DivergenceData :=
  (detectDivTopIdx price indS).map (mkDivTop price indS off mult)

/-- Index selection of the bullish ("底背离") block: the two most recent
price valleys and matched indicator valleys, kept when price makes a lower
low while the indicator rises. -/
def detectDivBottomIdx (price indS : List ℚ) : Option (ℕ × ℕ × ℕ × ℕ) :=
  let pValleys := (find_peaks price 3).2
  let iValleys := (find_peaks indS 3).2
  if 2 ≤ pValleys.length ∧ 2 ≤ iValleys.length then
    match lastTwo pValleys with
    | some (p1, p2) =>
      let inRange := iValleys.filter (fun m => decide (p1 ≤ m + 5) && decide (m ≤ p2 + 5))
      if 2 ≤ inRange.length then
        match lastTwo inRange with
        | some (m1, m2) =>
          if idx price p2 < idx price p1 ∧ idx indS m1 < idx indS m2 then
            some (p1, p2, m1, m2)
          else none
        | none => none
      else none
    | none => none
  else none

/-- The record the bullish block appends for a selected index quadruple. -/
def mkDivBottom (price indS : List ℚ) (off : ℕ) (mult : ℚ)
    (q : ℕ × ℕ × ℕ × ℕ) : DivergenceData :=
  match q with
  | (p1, p2, m1, m2) =>
    let priceDiffPct := (idx price p1 - idx price p2) / idx price p1 * 100
    let indDiffPct :=
      if idx indS m1 ≠ 0 then (idx indS m2 - idx indS m1) / |idx indS m1| * 100
      else 0
    { kind := .bottom
      price_peak1 := idx price p1, price_peak2 := idx price p2
      indicator_peak1 := idx indS m1, indicator_peak2 := idx indS m2
      peak1_idx := p1 + off, peak2_idx := p2 + off
      strength := min 100 ((priceDiffPct + indDiffPct) * mult) }

/-- The bullish block: index selection then record construction. -/
def detectDivBottom (price indS : List ℚ) (off : ℕ) (mult : ℚ) : Option DivergenceData :=
  (detectDivBottomIdx price indS).map (mkDivBottom price indS off mult)

/-- `TechnicalIndicators.detect_macd_divergence(df, lookback)`: analyses the
last `lookback` bars (`[]` when fewer exist), recomputes MACD on that window,
finds order-3 extrema of close and histogram, and appends at most one
bearish then at most one bullish divergence; reported indices are shifted by
`len(df) - lookback` back into the full series. -/
def detect_macd_divergence (bars : List Bar) (lookback : ℕ) : List DivergenceData :=
  if bars.length < lookback then []
  else
    let sub := bars.drop (bars.length - lookback)
    let price := sub.map Bar.close
    let mS := macdHist price
    let off := bars.length - lookback
    (detectDivTop price mS off 10).toList ++ (detectDivBottom price mS off 10).toList

/-- `TechnicalIndicators.detect_kdj_divergence(df, lookback)`: identical
shape, using the KDJ J line of the window and a strength multiplier of 5. -/
def detect_kdj_divergence (bars : List Bar) (lookback : ℕ) : List DivergenceData :=
  if bars.length < lookback then []
  else
    let sub := bars.drop (bars.length - lookback)
    let price := sub.map Bar.close
    let jS := kdjJ sub
    let off := bars.length - lookback
    (detectDivTop price jS off 5).toList ++ (detectDivBottom price jS off 5).toList

/-! ## Python keyword-argument semantics of the divergence call sites

`detect_macd_divergence` and `detect_kdj_divergence` are declared as
`def detect_..._divergence(df, lookback=60)`.  Every divergence call in
`bot.py` (`_detect_signals`) and `__main__.py` (`StockMonitor.detect_signal`)
invokes them as `detect_..._divergence(df, lookback=..., window=window)`.
Python raises `TypeError: ... got an unexpected keyword argument 'window'`
for such a call, because `window` is not among the declared parameters. -/

/-- Parameter names declared by `detect_macd_divergence` /
`detect_kdj_divergence` in `indicators.py`. -/
def divergenceParamNames : List String := ["df", "lookback"]

/-- Keyword names passed at the divergence call sites in `bot.py` and
`__main__.py`. -/
def divergenceCallKwargNames : List String := ["lookback", "window"]

/-- Whether every keyword of the call is an accepted parameter name; when
false, the Python call raises `TypeError` before the callee body runs. -/
def divergenceCallAccepted : Bool :=
  divergenceCallKwargNames.all (fun k => divergenceParamNames.contains k)

/-- The runtime error a mismatched call raises. -/
inductive PyErr | typeError
deriving DecidableEq, Repr

/-! ## `StockBot._detect_signals` (batch / backtest path) -/

/-- Batch signal type: `金叉` (buy) / `死叉` (sell). -/
inductive SigKind | buy | sell
deriving DecidableEq, Repr

/-- One entry of the batch signal list: kind, bar index (the bar whose
date/price the source records) and that bar's close. -/
structure Sig where
  kind : SigKind
  sigIdx : ℕ
  price : ℚ
deriving DecidableEq, Repr

/-- The golden-cross condition on consecutive values of a fast and a slow
series: `prev_fast <= prev_slow and curr_fast > curr_slow`
(shared verbatim by the MACD dif/dea, KDJ k/d and MA5/MA10 branches). -/
def goldenCross (pf ps f s : ℚ) : Bool :=
  decide (pf ≤ ps) && decide (s < f)

/-- The death-cross condition:
`prev_fast >= prev_slow and curr_fast < curr_slow`. -/
def deathCross (pf ps f s : ℚ) : Bool :=
  decide (ps ≤ pf) && decide (f < s)

/-- Golden cross of two aligned series at bar `i` (values at `i-1` and `i`). -/
def goldenCrossAt (fast slow : List ℚ) (i : ℕ) : Bool :=
  goldenCross (idx fast (i - 1)) (idx slow (i - 1)) (idx fast i) (idx slow i)

/-- Death cross of two aligned series at bar `i`. -/
def deathCrossAt (fast slow : List ℚ) (i : ℕ) : Bool :=
  deathCross (idx fast (i - 1)) (idx slow (i - 1)) (idx fast i) (idx slow i)

/-- Per-bar output of a two-series crossover branch: the source runs two
independent `if` statements, appending a `金叉` and/or a `死叉` entry. -/
def crossSigsAt (fast slow price : List ℚ) (i : ℕ) : List Sig :=
  (if goldenCrossAt fast slow i then [⟨.buy, i, idx price i⟩] else []) ++
  (if deathCrossAt fast slow i then [⟨.sell, i, idx price i⟩] else [])

/-- A crossover branch's scan `for i in range(1, len(df))`. -/
def crossScan (fast slow price : List ℚ) (n : ℕ) : List Sig :=
  ((List.range n).drop 1).foldr (fun i acc => crossSigsAt fast slow price i ++ acc) []

/-- The RSI branch's golden condition: `prev_rsi <= 30 and curr_rsi > 30`. -/
def rsiGolden (prev curr : ℚ) : Bool :=
  decide (prev ≤ 30) && decide (30 < curr)

/-- The RSI branch's death condition: `prev_rsi >= 70 and curr_rsi < 70`. -/
def rsiDeath (prev curr : ℚ) : Bool :=
  decide (70 ≤ prev) && decide (curr < 70)

/-- Per-bar output of the RSI threshold branch. -/
def rsiSigsAt (rsi price : List ℚ) (i : ℕ) : List Sig :=
  (if rsiGolden (idx rsi (i - 1)) (idx rsi i) then [⟨.buy, i, idx price i⟩] else []) ++
  (if rsiDeath (idx rsi (i - 1)) (idx rsi i) then [⟨.sell, i, idx price i⟩] else [])

/-- The RSI branch's scan `for i in range(1, len(df))`. -/
def rsiScan (rsi price : List ℚ) (n : ℕ) : List Sig :=
  ((List.range n).drop 1).foldr (fun i acc => rsiSigsAt rsi price i ++ acc) []

/-- MA golden cross with NaN semantics: any NaN (leading rolling region)
makes the float comparisons false, so no signal. -/
def maGolden (pf ps f s : Option ℚ) : Bool :=
  match pf, ps, f, s with
  | some a, some b, some c, some d => goldenCross a b c d
  | _, _, _, _ => false

/-- MA death cross with NaN semantics. -/
def maDeath (pf ps f s : Option ℚ) : Bool :=
  match pf, ps, f, s with
  | some a, some b, some c, some d => deathCross a b c d
  | _, _, _, _ => false

/-- Per-bar output of the MA5/MA10 branch. -/
def maSigsAt (ma5 ma10 : List (Option ℚ)) (price : List ℚ) (i : ℕ) : List Sig :=
  (if maGolden (oidx ma5 (i - 1)) (oidx ma10 (i - 1)) (oidx ma5 i) (oidx ma10 i)
   then [⟨.buy, i, idx price i⟩] else []) ++
  (if maDeath (oidx ma5 (i - 1)) (oidx ma10 (i - 1)) (oidx ma5 i) (oidx ma10 i)
   then [⟨.sell, i, idx price i⟩] else [])

/-- The MA branch's scan `for i in range(1, len(df))`. -/
def maScan (ma5 ma10 : List (Option ℚ)) (price : List ℚ) (n : ℕ) : List Sig :=
  ((List.range n).drop 1).foldr (fun i acc => maSigsAt ma5 ma10 price i ++ acc) []

/-- The divergence-only branches (`MACD_DIV`, `KDJ_DIV`): one signal per
detected divergence, stamped with the date and close of bar `peak2_idx`
(bullish divergence = `金叉`, bearish = `死叉`). -/
def divSigs (divs : List DivergenceData) (price : List ℚ) : List Sig :=
  divs.map (fun d =>
    ⟨if d.kind = .bottom then .buy else .sell, d.peak2_idx, idx price d.peak2_idx⟩)

/-- Membership of bar `i` in the combo branches' waiting set built from the
divergences of kind `k`: the source adds `range(peak2_idx,
min(peak2_idx + 10, len(df)))` for each divergence. -/
def comboWindowHit (divs : List DivergenceData) (k : DivKind) (n i : ℕ) : Bool :=
  divs.any (fun d =>
    decide (d.kind = k) && decide (d.peak2_idx ≤ i) && decide (i < min (d.peak2_idx + 10) n))

/-- Per-bar output of a combo branch: a cross only counts inside the
matching-polarity waiting set. -/
def comboSigsAt (fast slow price : List ℚ) (divs : List DivergenceData)
    (n i : ℕ) : List Sig :=
  (if comboWindowHit divs .bottom n i && goldenCrossAt fast slow i
   then [⟨.buy, i, idx price i⟩] else []) ++
  (if comboWindowHit divs .top n i && deathCrossAt fast slow i
   then [⟨.sell, i, idx price i⟩] else [])

/-- A combo branch's scan `for i in range(1, len(df))`. -/
def comboScan (fast slow price : List ℚ) (divs : List DivergenceData) (n : ℕ) : List Sig :=
  ((List.range n).drop 1).foldr (fun i acc => comboSigsAt fast slow price divs n i ++ acc) []

/-- The indicator tag dispatched on by `_detect_signals`. -/
inductive Ind | MACD | KDJ | MA | RSI | MACD_DIV | KDJ_DIV | MACD_COMBO | KDJ_COMBO
deriving DecidableEq, Repr

/-- Whether the branch for this indicator calls a divergence detector
(with the erroneous `window=` keyword). -/
def usesDivergenceCall : Ind → Bool
  | .MACD_DIV | .KDJ_DIV | .MACD_COMBO | .KDJ_COMBO => true
  | _ => false

/-- The branch bodies of `StockBot._detect_signals`, as they compute once
control reaches them.  The `window` parameter read from `params` is passed
only as the (rejected) keyword of the divergence calls and into a status
string; it does not influence any branch's signal list, so it does not
appear here — `detectSignals` below accounts for the call error. -/
def detectSignalsCore (bars : List Bar) (ind : Ind) : List Sig :=
  let closes := bars.map Bar.close
  let n := bars.length
  match ind with
  | .MACD => crossScan (macdDif closes) (macdDea closes) closes n
  | .KDJ => crossScan (kdjK bars) (kdjD bars) closes n
  | .MA => maScan (calculate_ma 5 closes) (calculate_ma 10 closes) closes n
  | .RSI => rsiScan (rsiList closes) closes n
  | .MACD_DIV => divSigs (detect_macd_divergence bars n) closes
  | .KDJ_DIV => divSigs (detect_kdj_divergence bars n) closes
  | .MACD_COMBO =>
    comboScan (macdDif closes) (macdDea closes) closes (detect_macd_divergence bars n) n
  | .KDJ_COMBO =>
    comboScan (kdjK bars) (kdjD bars) closes (detect_kdj_divergence bars n) n

/-- `StockBot._detect_signals(df, indicator, params)` with Python call
semantics: the four divergence-based branches invoke
`detect_..._divergence(df, lookback=len(df), window=window)`, which raises
`TypeError` because the callee accepts no `window` parameter. -/
def detectSignals (bars : List Bar) (ind : Ind) (_window : ℕ) : Except PyErr (List Sig) :=
  if usesDivergenceCall ind && !divergenceCallAccepted then .error .typeError
  else .ok (detectSignalsCore bars ind)

/-! ## `StockBot._calculate_strategy_stats` -/

/-- The statistics record the function returns:
`{"win_rate": ..., "trades": ..., "total_return": ...}` — note there is no
average-return entry. -/
structure Stats where
  win_rate : ℚ
  trades : ℕ
  total_return : ℚ
deriving DecidableEq, Repr

/-- One step of the first pass over the signal list, on state
`(capital, position, trades)`: a `金叉` while flat spends all capital at the
signal price; a `死叉` while long sells everything and counts one trade. -/
def tradeStep (st : ℚ × ℚ × ℕ) (s : Sig) : ℚ × ℚ × ℕ :=
  match st with
  | (capital, position, trades) =>
    match s.kind with
    | .buy => if position = 0 then (0, capital / s.price, trades) else st
    | .sell => if 0 < position then (position * s.price, 0, trades + 1) else st

/-- One step of the second pass, on state
`(capital, position, entry_price, wins)`: wins are counted from
`(price - entry_price)/entry_price > 0` at each close of a position. -/
def winStep (st : ℚ × ℚ × ℚ × ℕ) (s : Sig) : ℚ × ℚ × ℚ × ℕ :=
  match st with
  | (capital, position, entry, wins) =>
    match s.kind with
    | .buy => if position = 0 then (0, capital / s.price, s.price, wins) else st
    | .sell =>
      if 0 < position then
        (position * s.price, 0, entry,
         wins + (if 0 < (s.price - entry) / entry then 1 else 0))
      else st

/-- Close of the final bar (`df["close"].iloc[-1]`). -/
def lastCloseOf (bars : List Bar) : ℚ := idx (bars.map Bar.close) (bars.length - 1)

/-- The statistics computation on an already-detected signal list, with the
final close used to mark a trailing open position to market.  First pass:
compound the capital through the trades and count them; a trailing position
is liquidated at the final close.  `total_return` is
`(capital - 10000)/10000*100`.  Second pass recounts wins per closed trade;
`win_rate = wins/trades*100` when any trade closed. -/
def statsFromSignals (sigs : List Sig) (lastClose : ℚ) : Stats :=
  let p1 := sigs.foldl tradeStep (10000, 0, 0)
  let capital := if 0 < p1.2.1 then p1.2.1 * lastClose else p1.1
  let trades := p1.2.2
  let totalReturn := (capital - 10000) / 10000 * 100
  let p2 := sigs.foldl winStep (10000, 0, 0, 0)
  let wins := p2.2.2.2
  let winRate := if 0 < trades then (wins : ℚ) / (trades : ℚ) * 100 else 0
  ⟨winRate, trades, totalReturn⟩

/-- `StockBot._calculate_strategy_stats(df, indicator, params)`: detect the
historical signals (propagating the divergence-call `TypeError`), return the
zero record when no signal was found, else run the two statistics passes. -/
def calculate_strategy_stats (bars : List Bar) (ind : Ind) (window : ℕ) :
    Except PyErr Stats :=
  (detectSignals bars ind window).map (fun sigs =>
    if sigs = [] then ⟨0, 0, 0⟩ else statsFromSignals sigs (lastCloseOf bars))

/-! ## `StockBot.optimize` (grid search) -/

/-- One surviving optimization entry: the stats plus the (period, indicator,
window) combination that produced them. -/
structure RankedResult where
  stats : Stats
  periodIdx : ℕ
  ind : Ind
  window : Option ℕ
deriving DecidableEq, Repr

/-- The fixed base-indicator list `["MACD", "KDJ", "MA", "RSI"]`. -/
def indicatorsBase : List Ind := [.MACD, .KDJ, .MA, .RSI]

/-- The fixed divergence-indicator list
`["MACD_DIV", "KDJ_DIV", "MACD_COMBO", "KDJ_COMBO"]`. -/
def indicatorsDiv : List Ind := [.MACD_DIV, .KDJ_DIV, .MACD_COMBO, .KDJ_COMBO]

/-- The sensitivity grid `windows_to_test = [2, 3, 5]`. -/
def windowsToTest : List ℕ := [2, 3, 5]

/-- The stats evaluations one period contributes, in source order: the four
base indicators (with the default `window = 2` taken by
`params.get("window", 2)` when no params are given), then the four
divergence indicators over the window grid.  Combinations with zero trades
are discarded; a raised `TypeError` aborts the whole command. -/
def statsForPeriod (p : ℕ) (df : List Bar) : Except PyErr (List RankedResult) := do
  let base ← indicatorsBase.foldlM (fun acc ind => do
    let s ← calculate_strategy_stats df ind 2
    pure (if 0 < s.trades then acc ++ [⟨s, p, ind, none⟩] else acc)) []
  indicatorsDiv.foldlM (fun acc ind =>
    windowsToTest.foldlM (fun acc2 w => do
      let s ← calculate_strategy_stats df ind w
      pure (if 0 < s.trades then acc2 ++ [⟨s, p, ind, some w⟩] else acc2)) acc) base

/-- Outcome of the optimize command: an early "no data" exit, an empty-result
exit, or the ranked list (with the common start date it reported). -/
inductive OptOutcome
  | noData
  | noResults
  | ranked (commonStart : ℕ) (results : List RankedResult)
deriving DecidableEq, Repr

/-- Stable descending sort by `total_return`
(`results.sort(key=..., reverse=True)`). -/
def sortByTotalReturn (rs : List RankedResult) : List RankedResult :=
  rs.mergeSort (fun a b => decide (b.stats.total_return ≤ a.stats.total_return))

/-- `StockBot.optimize` on already-fetched data, one optional bar list per
entry of `periods_to_test`: keep periods with at least 50 bars; find the
latest of their start dates; truncate every kept series to dates at or after
it; then evaluate every combination on every truncated series of at least
30 bars, discard zero-trade results and rank by `total_return` descending. -/
def optimizeCore (fetched : List (Option (List Bar))) : Except PyErr OptOutcome := do
  let allData := (fetched.enum.filterMap (fun x =>
    match x.2 with
    | some df => if 50 ≤ df.length then some (x.1, df) else none
    | none => none))
  if allData = [] then pure .noData
  else
    let minStart := allData.foldl (fun acc x =>
      match acc, x.2.head? with
      | none, some b => some b.date
      | some m, some b => some (if m < b.date then b.date else m)
      | a, none => a) none
    let m := minStart.getD 0
    let trunc := allData.map (fun x => (x.1, x.2.filter (fun b => decide (m ≤ b.date))))
    let results ← trunc.foldlM (fun acc x => do
      if x.2.length < 30 then pure acc
      else do
        let rs ← statsForPeriod x.1 x.2
        pure (acc ++ rs)) []
    if results = [] then pure .noResults
    else pure (.ranked m (sortByTotalReturn results))

/-! ## `StockMonitor.detect_signal` (live-monitoring path), divergence-only
branches -/

/-- Live signal tags returned by the monitoring path. -/
inductive LiveSig
  | macdDivBullish | macdDivBearish
  | kdjDivBullish | kdjDivBearish
deriving DecidableEq, Repr

/-- The `MACD_DIV` branch of `StockMonitor.detect_signal`: guard
`len(df) < 30`, then call `detect_macd_divergence(df, lookback=60,
window=window)` — which raises `TypeError` — and, had the call succeeded,
return a signal for the first divergence whose confirmation index
`peak2_idx + window` equals the current (last) bar index. -/
def liveDetectMacdDiv (bars : List Bar) (window : ℕ) : Except PyErr (Option LiveSig) :=
  if bars.length < 30 then .ok none
  else if !divergenceCallAccepted then .error .typeError
  else
    let divs := detect_macd_divergence bars 60
    let current := bars.length - 1
    .ok ((divs.find? (fun d => decide (d.peak2_idx + window = current))).map
      (fun d => if d.kind = .bottom then .macdDivBullish else .macdDivBearish))

/-- The `KDJ_DIV` branch of `StockMonitor.detect_signal`, same shape. -/
def liveDetectKdjDiv (bars : List Bar) (window : ℕ) : Except PyErr (Option LiveSig) :=
  if bars.length < 30 then .ok none
  else if !divergenceCallAccepted then .error .typeError
  else
    let divs := detect_kdj_divergence bars 60
    let current := bars.length - 1
    .ok ((divs.find? (fun d => decide (d.peak2_idx + window = current))).map
      (fun d => if d.kind = .bottom then .kdjDivBullish else .kdjDivBearish))

/-! ## `SignalDetector.detect_price_change` -/

/-- Price-change signal direction. -/
inductive PriceSig | up | down
deriving DecidableEq, Repr

/-- `detect_price_change(current, prev_close)` with threshold `t`:
`None` when the previous close is exactly zero, otherwise an up signal when
the percentage change is at least `t`, a down signal when it is at most
`-t`, else `None`.  The returned value is the percentage change. -/
def detect_price_change (t current prev : ℚ) : Option (PriceSig × ℚ) :=
  if prev = 0 then none
  else
    let pct := (current - prev) / prev * 100
    if t ≤ pct then some (.up, pct)
    else if pct ≤ -t then some (.down, pct)
    else none

/-! ## Spec-side definitions (for refinement comparisons)

These translate the specification's wording, to be compared against the
source-derived definitions above. -/

/-- Spec §3/§4.5 trade pairing, "Modelled from the spec": walk the signal
list chronologically; a buy-type signal opens a position when none is open,
the next sell-type signal closes it into an (entry, exit) pair; an unmatched
trailing entry price is returned separately. -/
def pairTradesGo : List Sig → Option ℚ → List (ℚ × ℚ) × Option ℚ
  | [], cur => ([], cur)
  | s :: rest, cur =>
    match s.kind, cur with
    | .buy, none => pairTradesGo rest (some s.price)
    | .sell, some e =>
      let r := pairTradesGo rest none
      ((e, s.price) :: r.1, r.2)
    | _, _ => pairTradesGo rest cur

/-- The closed (entry, exit) pairs and the optional trailing open entry. -/
def pairTrades (sigs : List Sig) : List (ℚ × ℚ) × Option ℚ := pairTradesGo sigs none

/-- Spec §4.5: `returnPct = (exitPrice - entryPrice)/entryPrice*100`. -/
def returnPct (e x : ℚ) : ℚ := (x - e) / e * 100

/-- Spec §4.5, "Modelled from the spec": `totalReturn = sum(returnPct)`
(simple sum over the paired trades) plus the mark-to-market return of a
trailing open position valued at the final close. -/
def specTotalReturn (sigs : List Sig) (lastClose : ℚ) : ℚ :=
  let r := pairTrades sigs
  listSum (r.1.map (fun p => returnPct p.1 p.2)) +
    (match r.2 with
     | some e => returnPct e lastClose
     | none => 0)

/-- Compounded product of the per-trade price ratios (what the code's
capital-reinvesting loop actually computes). -/
def tradeProd (ps : List (ℚ × ℚ)) : ℚ := (ps.map (fun p => p.2 / p.1)).prod

/-- Mark-to-market factor of a trailing open position. -/
def openFactor (cur : Option ℚ) (lastClose : ℚ) : ℚ :=
  match cur with
  | some e => lastClose / e
  | none => 1

/-- Number of winning closed trades (`exit > entry`). -/
def specWins (ps : List (ℚ × ℚ)) : ℕ := ps.countP (fun p => decide (p.1 < p.2))

/-! ## Concrete test series -/

/-- Bars from a close series: `date = index`, `high = low = close`. -/
def mkBars (xs : List ℚ) : List Bar := xs.enum.map (fun p => ⟨p.1, p.2, p.2, p.2⟩)

/-- A triangle-wave close series giving three completed MACD round trips
(buy 12 → sell 10, buy 16 → sell 12, buy 18 → sell 12). -/
def c1closes : List ℚ :=
  [10, 12, 14, 16, 18, 16, 14, 12, 10, 12, 14, 16, 18, 16, 14, 12, 10, 12, 14, 16,
   18, 16, 14, 12, 10]

/-- Bar series of `c1closes`. -/
def c1bars : List Bar := mkBars c1closes

/-- A 24-bar close series whose last two price peaks (indices 6 and 18) form
a bearish MACD divergence: a strong rally into the first top, a pullback,
and a weaker rally into a marginally higher second top. -/
def c3pre : List ℚ :=
  [1, 2, 4, 7, 10, 12, 13, (25 : ℚ)/2, 11, (19 : ℚ)/2, (17 : ℚ)/2, 8, (41 : ℚ)/5, 9, 10,
   (56 : ℚ)/5, (123 : ℚ)/10, (131 : ℚ)/10, (27 : ℚ)/2, (66 : ℚ)/5,
   (25 : ℚ)/2, (23 : ℚ)/2, (21 : ℚ)/2, (19 : ℚ)/2]

/-- `c3pre` extended by a strong rally to a clear new high (index 29) and a
final decline: in the full history the most recent price-peak pair (18, 29)
does not diverge, so the single-shot detector drops the earlier divergence. -/
def c3full : List ℚ := c3pre ++ [(21 : ℚ)/2, 12, 14, 16, 18, 19, 18, 16, 14]

/-- Bar series of `c3pre` (24 bars). -/
def c3preBars : List Bar := mkBars c3pre

/-- Bar series of `c3full` (33 bars). -/
def c3fullBars : List Bar := mkBars c3full

/-- A 30-bar close series with a bearish MACD divergence whose second peak
is at index 18 and whose first MACD death cross occurs exactly at bar
28 = 18 + 10: rally, pullback, weaker second top, then a slow grind up that
keeps `dif` above `dea` through bar 27, then a crash. -/
def c4closes : List ℚ :=
  [1, 2, 4, 7, 10, 12, 13, (25 : ℚ)/2, 11, (19 : ℚ)/2, (17 : ℚ)/2, 8, (41 : ℚ)/5, 9, 10,
   (56 : ℚ)/5, (123 : ℚ)/10, (131 : ℚ)/10, (27 : ℚ)/2, (66 : ℚ)/5,
   (133 : ℚ)/10, (269 : ℚ)/20, (69 : ℚ)/5, (71 : ℚ)/5, (73 : ℚ)/5, 15, (153 : ℚ)/10,
   (155 : ℚ)/10, 10, (19 : ℚ)/2]

/-- Bar series of `c4closes`. -/
def c4bars : List Bar := mkBars c4closes

/-- Strictly rising closes 1, 2, ..., 20. -/
def c5closes : List ℚ :=
  [1, 2, 3, 4, 5, 6, 7, 8, 9, 10, 11, 12, 13, 14, 15, 16, 17, 18, 19, 20]

/-- Fifty flat bars at close 10 (dates 0..49). -/
def c6flat : List Bar := mkBars ((List.range 50).map (fun _ => (10 : ℚ)))

/-- Thirty flat bars at close 10. -/
def flat30 : List Bar := mkBars ((List.range 30).map (fun _ => (10 : ℚ)))

/-- A two-signal list: one completed trade bought at 100 and sold at 200. -/
def c1sigs : List Sig := [⟨SigKind.buy, 0, 100⟩, ⟨SigKind.sell, 1, 200⟩]

/-- Decidable equality of `Except` results, for evaluating embedded calls. -/
instance {ε α : Type} [DecidableEq ε] [DecidableEq α] : DecidableEq (Except ε α) :=
  fun a b =>
    match a, b with
    | .ok x, .ok y => decidable_of_iff (x = y) (by simp)
    | .error e, .error f => decidable_of_iff (e = f) (by simp)
    | .ok _, .error _ => isFalse (by simp)
    | .error _, .ok _ => isFalse (by simp)

/-! ## Shared lemmas -/

/-- A golden cross and a death cross cannot hold on the same pair of
consecutive values: both would force `curr_fast > curr_slow` and
`curr_fast < curr_slow`. -/
theorem goldenCross_deathCross_exclusive (pf ps f s : ℚ) :
    ¬(goldenCross pf ps f s = true ∧ deathCross pf ps f s = true) := by
  rintro ⟨h1, h2⟩
  simp only [goldenCross, deathCross, Bool.and_eq_true, decide_eq_true_eq] at h1 h2
  exact absurd h1.2 (not_lt.mpr h2.2.le)

/-- The RSI threshold conditions cannot both hold: the previous value cannot
be at most 30 and at least 70. -/
theorem rsiGolden_rsiDeath_exclusive (p c : ℚ) :
    ¬(rsiGolden p c = true ∧ rsiDeath p c = true) := by
  rintro ⟨h1, h2⟩
  simp only [rsiGolden, rsiDeath, Bool.and_eq_true, decide_eq_true_eq] at h1 h2
  linarith [h1.1, h2.1]

/-- The MA cross conditions cannot both hold (NaN cases are both false). -/
theorem maGolden_maDeath_exclusive (pf ps f s : Option ℚ) :
    ¬(maGolden pf ps f s = true ∧ maDeath pf ps f s = true) := by
  rintro ⟨h1, h2⟩
  cases pf <;> cases ps <;> cases f <;> cases s <;>
    simp only [maGolden, maDeath] at h1 h2 <;>
    first
      | exact Bool.false_ne_true h1
      | exact goldenCross_deathCross_exclusive _ _ _ _ ⟨h1, h2⟩

/-- Indices scanned by `find_peaks`: `range(order, len - order)`. -/
theorem mem_find_peaks_scan (xs : List ℚ) (order i : ℕ) :
    i ∈ (List.range xs.length).filter
        (fun i => decide (order ≤ i) && decide (i + order < xs.length)) ↔
      order ≤ i ∧ i + order < xs.length := by
  simp only [List.mem_filter, List.mem_range, Bool.and_eq_true, decide_eq_true_eq]
  constructor
  · rintro ⟨_, h2, h3⟩; exact ⟨h2, h3⟩
  · rintro ⟨h2, h3⟩; exact ⟨by omega, h2, h3⟩

/-- The peak-check loop succeeds exactly when the value at `i` is strictly
greater than each of the `order` neighbors on both sides. -/
theorem isPeakAt_iff (xs : List ℚ) (order i : ℕ) :
    isPeakAt xs order i = true ↔
      ∀ j, 1 ≤ j → j ≤ order → idx xs (i - j) < idx xs i ∧ idx xs (i + j) < idx xs i := by
  simp only [isPeakAt, List.all_eq_true, List.mem_range, Bool.not_eq_true',
    Bool.or_eq_false_iff, decide_eq_false_iff_not, not_le]
  constructor
  · intro H j h1 h2
    have hj : j - 1 + 1 = j := by omega
    have := H (j - 1) (by omega)
    rwa [hj] at this
  · intro H j hj
    exact H (j + 1) (by omega) (by omega)

/-- The valley-check loop, mirror statement. -/
theorem isValleyAt_iff (xs : List ℚ) (order i : ℕ) :
    isValleyAt xs order i = true ↔
      ∀ j, 1 ≤ j → j ≤ order → idx xs i < idx xs (i - j) ∧ idx xs i < idx xs (i + j) := by
  simp only [isValleyAt, List.all_eq_true, List.mem_range, Bool.not_eq_true',
    Bool.or_eq_false_iff, decide_eq_false_iff_not, not_le]
  constructor
  · intro H j h1 h2
    have hj : j - 1 + 1 = j := by omega
    have := H (j - 1) (by omega)
    rwa [hj] at this
  · intro H j hj
    exact H (j + 1) (by omega) (by omega)

/-- Membership in the reported peak list. -/
theorem mem_find_peaks_fst (xs : List ℚ) (order i : ℕ) :
    i ∈ (find_peaks xs order).1 ↔
      (order ≤ i ∧ i + order < xs.length) ∧ isPeakAt xs order i = true := by
  unfold find_peaks
  rw [List.mem_filter, mem_find_peaks_scan]

/-- Membership in the reported valley list. -/
theorem mem_find_peaks_snd (xs : List ℚ) (order i : ℕ) :
    i ∈ (find_peaks xs order).2 ↔
      (order ≤ i ∧ i + order < xs.length) ∧ isValleyAt xs order i = true := by
  unfold find_peaks
  rw [List.mem_filter, mem_find_peaks_scan]

/-! ## Claim theorems -/

/-- C2 (code_bug evidence): for every bar series of at least 30 bars and
every window value, the live-monitoring divergence branches
(`MACD_DIV`, `KDJ_DIV` in `StockMonitor.detect_signal`) raise `TypeError`
instead of emitting a signal at `peak2_idx + window`: the call passes a
`window=` keyword that `detect_..._divergence` does not accept. -/
theorem c2_live_divergence_call_type_error (bars : List Bar) (window : ℕ)
    (h : 30 ≤ bars.length) :
    liveDetectMacdDiv bars window = .error .typeError ∧
    liveDetectKdjDiv bars window = .error .typeError := by
  have hc : divergenceCallAccepted = false := by decide
  constructor <;> simp [liveDetectMacdDiv, liveDetectKdjDiv, hc, Nat.not_lt.mpr h]

/-- Witness for C2: thirty flat bars with the default window 2. -/
theorem c2_live_divergence_call_type_error_witness :
    liveDetectMacdDiv flat30 2 = .error .typeError ∧
    liveDetectKdjDiv flat30 2 = .error .typeError :=
  c2_live_divergence_call_type_error flat30 2 (by decide)

/-- C6 (code_bug evidence): a concrete optimize run (one period with fifty
flat bars) aborts with `TypeError` at the first divergence-indicator
combination, before any zero-trade filtering of divergence strategies or any
ranking can happen. -/
theorem c6_optimize_type_error_before_ranking :
    optimizeCore [some c6flat, none, none, none, none, none] =
      .error .typeError := by with_unfolding_all decide

/-- C5 counterexample: on the strictly rising close series 1..20 the
Wilder-smoothed average loss at index 19 is exactly zero, yet the RSI value
there is 100, not the neutral 50 the claim requires. -/
theorem c5_rising_closes_rsi_is_100 :
    avgLossAt c5closes 19 = 0 ∧ rsiAt c5closes 19 = 100 ∧ (100 : ℚ) ≠ 50 := by
  with_unfolding_all decide

/-- C7 counterexample: on the series `[3, 4, 0, 1]` with `order = 1`,
`find_peaks` reports the adjacent indices 1 (peak) and 2 (valley). -/
theorem c7_adjacent_peak_valley_pair :
    1 ∈ (find_peaks [3, 4, 0, 1] 1).1 ∧ 2 ∈ (find_peaks [3, 4, 0, 1] 1).2 := by
  with_unfolding_all decide

/-- C1 counterexample: on `c1bars` with the `MACD` indicator the code's
`total_return` is the compounded -175/3 percent, while the simple sum of the
per-trade percentage returns prescribed by the claim is -75 percent. -/
theorem c1_total_return_not_simple_sum :
    (calculate_strategy_stats c1bars Ind.MACD 2).map Stats.total_return
        = Except.ok ((-175 : ℚ)/3) ∧
    specTotalReturn (detectSignalsCore c1bars Ind.MACD) (lastCloseOf c1bars) = -75 ∧
    ((-175 : ℚ)/3) ≠ -75 := by with_unfolding_all decide

/-- C3 counterexample: the whole-history (backtest) call on `c3fullBars`
returns no divergence at all, although the same detector finds a bearish
divergence in the first 24 bars of that very history — the batch path does
not collect every qualifying divergence. -/
theorem c3_whole_history_call_misses_earlier_divergence :
    c3fullBars.take 24 = c3preBars ∧
    ((detect_macd_divergence c3preBars c3preBars.length).countP
        (fun d => decide (d.kind = DivKind.top))) = 1 ∧
    detect_macd_divergence c3fullBars c3fullBars.length = [] := by
  with_unfolding_all decide

/-- C4 counterexample: on `c4bars` the batch `MACD_COMBO` branch sees a
bearish divergence with `peak2_idx = 18` and a death cross exactly at bar
28 = 18 + 10 — inside the claim's inclusive window — yet emits no combo
signal (the built waiting set stops at `peak2_idx + 9`); moreover the branch
as actually called raises `TypeError`. -/
theorem c4_death_cross_at_window_edge_yields_no_combo :
    (detect_macd_divergence c4bars c4bars.length).map
        (fun d => (d.kind, d.peak2_idx)) = [(DivKind.top, 18)] ∧
    deathCrossAt (macdDif c4closes) (macdDea c4closes) 28 = true ∧
    detectSignalsCore c4bars Ind.MACD_COMBO = [] ∧
    detectSignals c4bars Ind.MACD_COMBO 2 = Except.error PyErr.typeError := by
  with_unfolding_all decide

/-- C7 (amended): for every series and every `order >= 1`, `find_peaks`
never reports the same index as both peak and valley, and never reports two
adjacent indices of the same kind; an adjacent peak-valley pair, however,
is possible (see the counterexample). -/
theorem c7_no_same_index_and_no_adjacent_same_kind (xs : List ℚ) (order : ℕ)
    (h : 1 ≤ order) :
    (∀ i, ¬(i ∈ (find_peaks xs order).1 ∧ i ∈ (find_peaks xs order).2)) ∧
    (∀ i, ¬(i ∈ (find_peaks xs order).1 ∧ i + 1 ∈ (find_peaks xs order).1)) ∧
    (∀ i, ¬(i ∈ (find_peaks xs order).2 ∧ i + 1 ∈ (find_peaks xs order).2)) := by
  refine ⟨?_, ?_, ?_⟩
  · rintro i ⟨hp, hv⟩
    have h1 := (((mem_find_peaks_fst xs order i).mp hp).2)
    have h2 := (((mem_find_peaks_snd xs order i).mp hv).2)
    have g1 := ((isPeakAt_iff xs order i).mp h1 1 le_rfl h).2
    have g2 := ((isValleyAt_iff xs order i).mp h2 1 le_rfl h).2
    exact absurd g1 (not_lt.mpr g2.le)
  · rintro i ⟨hp, hq⟩
    have h1 := (((mem_find_peaks_fst xs order i).mp hp).2)
    have h2 := (((mem_find_peaks_fst xs order (i + 1)).mp hq).2)
    have g1 := ((isPeakAt_iff xs order i).mp h1 1 le_rfl h).2
    have g2 := ((isPeakAt_iff xs order (i + 1)).mp h2 1 le_rfl h).1
    rw [Nat.add_sub_cancel] at g2
    exact absurd g1 (not_lt.mpr g2.le)
  · rintro i ⟨hp, hq⟩
    have h1 := (((mem_find_peaks_snd xs order i).mp hp).2)
    have h2 := (((mem_find_peaks_snd xs order (i + 1)).mp hq).2)
    have g1 := ((isValleyAt_iff xs order i).mp h1 1 le_rfl h).2
    have g2 := ((isValleyAt_iff xs order (i + 1)).mp h2 1 le_rfl h).1
    rw [Nat.add_sub_cancel] at g2
    exact absurd g2 (not_lt.mpr g1.le)

/-- Witness for C7: the series of the counterexample, at the peak index 1. -/
theorem c7_no_same_index_and_no_adjacent_same_kind_witness :
    ¬(1 ∈ (find_peaks [3, 4, 0, 1] 1).1 ∧ 1 ∈ (find_peaks [3, 4, 0, 1] 1).2) :=
  (c7_no_same_index_and_no_adjacent_same_kind [3, 4, 0, 1] 1 le_rfl).1 1

/-- C8 (confirmed): `find_peaks` reports `i` as a peak iff
`order <= i < len - order` and the value at `i` is strictly greater than
every one of the `order` neighbors on each side (so ties disqualify);
symmetrically for valleys; consequently no reported index is within `order`
of either boundary. -/
theorem c8_find_peaks_characterization (xs : List ℚ) (order : ℕ)
    (_h : 1 ≤ order) (i : ℕ) :
    (i ∈ (find_peaks xs order).1 ↔
      order ≤ i ∧ i + order < xs.length ∧
        ∀ j, 1 ≤ j → j ≤ order →
          idx xs (i - j) < idx xs i ∧ idx xs (i + j) < idx xs i) ∧
    (i ∈ (find_peaks xs order).2 ↔
      order ≤ i ∧ i + order < xs.length ∧
        ∀ j, 1 ≤ j → j ≤ order →
          idx xs i < idx xs (i - j) ∧ idx xs i < idx xs (i + j)) ∧
    ((i ∈ (find_peaks xs order).1 ∨ i ∈ (find_peaks xs order).2) →
      order ≤ i ∧ i + order < xs.length) := by
  refine ⟨?_, ?_, ?_⟩
  · rw [mem_find_peaks_fst, isPeakAt_iff, and_assoc]
  · rw [mem_find_peaks_snd, isValleyAt_iff, and_assoc]
  · rintro (hp | hv)
    · exact ((mem_find_peaks_fst xs order i).mp hp).1
    · exact ((mem_find_peaks_snd xs order i).mp hv).1

/-- Witness for C8: the reported peak of `[3, 4, 0, 1]` with `order = 1`
satisfies the boundary consequence. -/
theorem c8_find_peaks_characterization_witness :
    1 ≤ (1 : ℕ) ∧ 1 + 1 < ([3, 4, 0, 1] : List ℚ).length :=
  (c8_find_peaks_characterization [3, 4, 0, 1] 1 le_rfl 1).2.2
    (Or.inl (by with_unfolding_all decide))

/-- A list of zeros indexes to zero (also out of bounds, where the default
is zero). -/
theorem getD_zero_of_all_zero (xs : List ℚ) (h : ∀ x ∈ xs, x = 0) (i : ℕ) :
    xs.getD i 0 = 0 := by
  rcases Nat.lt_or_ge i xs.length with hi | hi
  · rw [List.getD_eq_getElem xs 0 hi]
    exact h _ (List.getElem_mem hi)
  · exact List.getD_eq_default xs 0 (by omega)

/-- The adjusted EWM of an all-zero series is all zero whenever the running
numerator is zero. -/
theorem ewmAdjFrom_all_zero (a : ℚ) (xs : List ℚ) :
    ∀ num den : ℚ, (∀ x ∈ xs, x = 0) → num = 0 →
      ∀ y ∈ ewmAdjFrom a num den xs, y = 0 := by
  induction xs with
  | nil => intro num den _ _ y hy; simp [ewmAdjFrom] at hy
  | cons x xs ih =>
    intro num den hx hnum y hy
    have hx0 : x = 0 := hx x (by simp)
    simp only [ewmAdjFrom, List.mem_cons] at hy
    rcases hy with rfl | hy
    · rw [hx0, hnum]; simp
    · exact ih _ _ (fun z hz => hx z (by simp [hz])) (by rw [hx0, hnum]; ring) y hy

/-- The adjusted EWM of a nonnegative series is positive wherever the input
is positive (or the accumulated numerator already is), for smoothing factors
with `0 < 1 - a`. -/
theorem ewmAdjFrom_getD_pos (a : ℚ) (ha : 0 < 1 - a) (xs : List ℚ) :
    ∀ num den : ℚ, (∀ x ∈ xs, 0 ≤ x) → 0 ≤ num → 0 ≤ den →
      ∀ i, i < xs.length → (0 < xs.getD i 0 ∨ 0 < num) →
        0 < (ewmAdjFrom a num den xs).getD i 0 := by
  induction xs with
  | nil => intro num den _ _ _ i hi _; simp at hi
  | cons x xs ih =>
    intro num den hx hnum hden i hi hpos
    have hx0 : 0 ≤ x := hx x (by simp)
    have hnum2 : 0 ≤ x + (1 - a) * num := by positivity
    have hden2 : (0 : ℚ) < 1 + (1 - a) * den := by positivity
    cases i with
    | zero =>
      have hn : 0 < x + (1 - a) * num := by
        rcases hpos with hp | hp
        · have : (0 : ℚ) ≤ (1 - a) * num := by positivity
          simp only [List.getD_cons_zero] at hp
          linarith
        · have : (0 : ℚ) < (1 - a) * num := mul_pos ha hp
          linarith
      simpa [ewmAdjFrom] using div_pos hn hden2
    | succ i =>
      have hrec := ih (x + (1 - a) * num) (1 + (1 - a) * den)
        (fun z hz => hx z (by simp [hz])) hnum2 hden2.le i (by simpa using hi)
      have hpos2 : 0 < xs.getD i 0 ∨ 0 < x + (1 - a) * num := by
        rcases hpos with hp | hp
        · exact Or.inl (by simpa using hp)
        · exact Or.inr (by nlinarith)
      simpa [ewmAdjFrom] using hrec hpos2

/-- Entries of the consecutive-difference `zipWith` over a strictly
increasing list are positive. -/
theorem zipWith_sub_pos_of_chain :
    ∀ (c : ℚ) (cs : List ℚ), List.Chain' (· < ·) (c :: cs) →
      ∀ e ∈ List.zipWith (fun b a => b - a) cs (c :: cs), 0 < e := by
  intro c cs
  induction cs generalizing c with
  | nil => simp
  | cons y ys ihy =>
    intro hch e he
    rw [List.chain'_cons] at hch
    simp only [List.zipWith, List.mem_cons] at he
    rcases he with rfl | he
    · linarith [hch.1]
    · exact ihy y hch.2 e he

/-- On a strictly increasing close series every entry of the loss series
is zero. -/
theorem losses_all_zero_of_chain (closes : List ℚ)
    (hmono : List.Chain' (· < ·) closes) : ∀ x ∈ losses closes, x = 0 := by
  intro x hx
  simp only [losses, List.mem_map] at hx
  obtain ⟨d, hd, rfl⟩ := hx
  have hdn : ¬ d < 0 := by
    cases closes with
    | nil => simp [diffs] at hd
    | cons c cs =>
      simp only [diffs, List.mem_cons] at hd
      rcases hd with rfl | hd
      · simp
      · exact not_lt.mpr (zipWith_sub_pos_of_chain c cs hmono d hd).le
  simp [hdn]

/-- Gains are nonnegative by construction. -/
theorem gains_nonneg (closes : List ℚ) : ∀ x ∈ gains closes, 0 ≤ x := by
  intro x hx
  simp only [gains, List.mem_map] at hx
  obtain ⟨d, _, rfl⟩ := hx
  by_cases h : 0 < d
  · simpa [h] using h.le
  · simp [h]

/-- The gain series is as long as the close series. -/
theorem gains_length (closes : List ℚ) : (gains closes).length = closes.length := by
  cases closes with
  | nil => rfl
  | cons c cs => simp [gains, diffs]

/-- On a strictly increasing close series the gain at any index from 1 on
is positive. -/
theorem gains_getD_pos (closes : List ℚ) (hmono : List.Chain' (· < ·) closes)
    (i : ℕ) (h1 : 1 ≤ i) (hi : i < closes.length) :
    0 < (gains closes).getD i 0 := by
  cases closes with
  | nil => simp at hi
  | cons c cs =>
    have hex : ∃ j, i = j + 1 := ⟨i - 1, by omega⟩
    obtain ⟨j, rfl⟩ := hex
    have hj : j < (List.zipWith (fun b a => b - a) cs (c :: cs)).length := by
      simp only [List.length_zipWith, List.length_cons]
      simp only [List.length_cons] at hi
      omega
    have hgd : (gains (c :: cs)).getD (j + 1) 0 =
        (fun d => if 0 < d then d else 0)
          ((List.zipWith (fun b a => b - a) cs (c :: cs)).get ⟨j, hj⟩) := by
      show (List.map _ (diffs (c :: cs))).getD (j + 1) 0 = _
      rw [diffs]
      simp only [List.map_cons, List.getD_cons_succ]
      rw [List.getD_eq_getElem _ 0 (by simpa using hj), List.getElem_map]
      simp
    rw [hgd]
    have hpos := zipWith_sub_pos_of_chain c cs hmono _
      (List.get_mem (List.zipWith (fun b a => b - a) cs (c :: cs)) j hj)
    simp only [if_pos hpos]
    exact hpos

/-- On a strictly increasing close series the smoothed average loss is zero
everywhere. -/
theorem avgLossAt_zero_of_chain (closes : List ℚ)
    (hmono : List.Chain' (· < ·) closes) (i : ℕ) : avgLossAt closes i = 0 := by
  show (ewmAdjFrom (1 / 14) 0 0 (losses closes)).getD i 0 = 0
  exact getD_zero_of_all_zero _
    (ewmAdjFrom_all_zero _ _ 0 0 (losses_all_zero_of_chain closes hmono) rfl) i

/-- On a strictly increasing close series the smoothed average gain is
positive at every in-range index from 1 on. -/
theorem avgGainAt_pos_of_chain (closes : List ℚ)
    (hmono : List.Chain' (· < ·) closes) (i : ℕ) (h1 : 1 ≤ i)
    (hi : i < closes.length) : 0 < avgGainAt closes i := by
  show 0 < (ewmAdjFrom (1 / 14) 0 0 (gains closes)).getD i 0
  exact ewmAdjFrom_getD_pos (1 / 14) (by norm_num) (gains closes) 0 0
    (gains_nonneg closes) le_rfl le_rfl i (by rw [gains_length]; exact hi)
    (Or.inl (gains_getD_pos closes hmono i h1 hi))

/-- The RSI pipeline at a valid index whose average loss is zero: 50 when
the average gain is also zero (the `0/0 = NaN` path), else 100 (the
`rs = +inf` path). -/
theorem rsiAt_of_avgLoss_zero (closes : List ℚ) (i : ℕ) (h13 : 13 ≤ i)
    (hl : avgLossAt closes i = 0) :
    rsiAt closes i = if avgGainAt closes i = 0 then 50 else 100 := by
  rw [rsiAt, if_neg (Nat.not_lt.mpr h13)]
  simp [hl]

/-- The bearish block only ever produces a bearish record. -/
theorem detectDivTop_kind (price indS : List ℚ) (off : ℕ) (mult : ℚ)
    (d : DivergenceData) (h : detectDivTop price indS off mult = some d) :
    d.kind = DivKind.top := by
  unfold detectDivTop at h
  rcases Option.map_eq_some'.mp h with ⟨q, _, rfl⟩
  obtain ⟨p1, p2, m1, m2⟩ := q
  rfl

/-- The bullish block only ever produces a bullish record. -/
theorem detectDivBottom_kind (price indS : List ℚ) (off : ℕ) (mult : ℚ)
    (d : DivergenceData) (h : detectDivBottom price indS off mult = some d) :
    d.kind = DivKind.bottom := by
  unfold detectDivBottom at h
  rcases Option.map_eq_some'.mp h with ⟨q, _, rfl⟩
  obtain ⟨p1, p2, m1, m2⟩ := q
  rfl

/-- A one-bearish-then-one-bullish option pair flattens to a list with at
most one record of each polarity. -/
theorem countP_divList_le_one (t b : Option DivergenceData)
    (ht : ∀ d, t = some d → d.kind = DivKind.top)
    (hb : ∀ d, b = some d → d.kind = DivKind.bottom) :
    (t.toList ++ b.toList).countP (fun d => decide (d.kind = DivKind.top)) ≤ 1 ∧
    (t.toList ++ b.toList).countP (fun d => decide (d.kind = DivKind.bottom)) ≤ 1 := by
  cases t with
  | none =>
    cases b with
    | none => simp
    | some db => have hb2 := hb db rfl; simp [List.countP_cons, hb2]
  | some dt =>
    have ht2 := ht dt rfl
    cases b with
    | none => simp [List.countP_cons, ht2]
    | some db => have hb2 := hb db rfl; simp [List.countP_cons, ht2, hb2]

/-- C3 (amended): both divergence detectors report at most one bearish and
at most one bullish divergence per call for every lookback — including the
whole-history lookback the batch/backtest path passes; the batch path does
not collect every qualifying divergence across the history, it merely widens
the window of the same single-shot scan (see the counterexample). -/
theorem c3_at_most_one_divergence_per_polarity (bars : List Bar) (lookback : ℕ) :
    ((detect_macd_divergence bars lookback).countP
        (fun d => decide (d.kind = DivKind.top)) ≤ 1) ∧
    ((detect_macd_divergence bars lookback).countP
        (fun d => decide (d.kind = DivKind.bottom)) ≤ 1) ∧
    ((detect_kdj_divergence bars lookback).countP
        (fun d => decide (d.kind = DivKind.top)) ≤ 1) ∧
    ((detect_kdj_divergence bars lookback).countP
        (fun d => decide (d.kind = DivKind.bottom)) ≤ 1) := by
  unfold detect_macd_divergence detect_kdj_divergence
  by_cases hlen : bars.length < lookback
  · simp [hlen]
  · simp only [hlen, if_false]
    refine ⟨?_, ?_, ?_, ?_⟩
    · exact (countP_divList_le_one _ _ (fun d hd => detectDivTop_kind _ _ _ _ d hd)
        (fun d hd => detectDivBottom_kind _ _ _ _ d hd)).1
    · exact (countP_divList_le_one _ _ (fun d hd => detectDivTop_kind _ _ _ _ d hd)
        (fun d hd => detectDivBottom_kind _ _ _ _ d hd)).2
    · exact (countP_divList_le_one _ _ (fun d hd => detectDivTop_kind _ _ _ _ d hd)
        (fun d hd => detectDivBottom_kind _ _ _ _ d hd)).1
    · exact (countP_divList_le_one _ _ (fun d hd => detectDivTop_kind _ _ _ _ d hd)
        (fun d hd => detectDivBottom_kind _ _ _ _ d hd)).2

/-- Membership in a scan built by folding per-bar signal lists together. -/
theorem mem_scanAppend {α β : Type} (f : α → List β) (l : List α) (x : β) :
    x ∈ l.foldr (fun a acc => f a ++ acc) [] ↔ ∃ a ∈ l, x ∈ f a := by
  induction l with
  | nil => simp
  | cons a l ih => simp [ih]

/-- The bar range scanned by `for i in range(1, n)`. -/
theorem mem_range_drop_one (n i : ℕ) :
    i ∈ (List.range n).drop 1 ↔ 1 ≤ i ∧ i < n := by
  cases n with
  | zero => simp
  | succ m =>
    rw [List.range_succ_eq_map]
    simp only [List.drop_succ_cons, List.drop_zero, List.mem_map, List.mem_range]
    constructor
    · rintro ⟨j, hj, rfl⟩; omega
    · rintro ⟨h1, h2⟩; exact ⟨i - 1, by omega, by omega⟩

/-- The two possible outputs of a combo branch's per-bar step. -/
theorem mem_comboSigsAt (fast slow price : List ℚ) (divs : List DivergenceData)
    (n i : ℕ) (s : Sig) :
    s ∈ comboSigsAt fast slow price divs n i ↔
      ((comboWindowHit divs DivKind.bottom n i && goldenCrossAt fast slow i) = true ∧
        s = ⟨SigKind.buy, i, idx price i⟩) ∨
      ((comboWindowHit divs DivKind.top n i && deathCrossAt fast slow i) = true ∧
        s = ⟨SigKind.sell, i, idx price i⟩) := by
  unfold comboSigsAt
  by_cases h1 : (comboWindowHit divs DivKind.bottom n i && goldenCrossAt fast slow i) = true <;>
    by_cases h2 : (comboWindowHit divs DivKind.top n i && deathCrossAt fast slow i) = true <;>
      simp [h1, h2]

/-- A sell-side combo signal exists at bar `i` exactly when `i` is a scanned
bar with a death cross and some bearish divergence whose waiting range
(`range(peak2_idx, min(peak2_idx + 10, n))`) contains `i`. -/
theorem comboScan_sell_mem_iff (fast slow price : List ℚ)
    (divs : List DivergenceData) (n i : ℕ) :
    (∃ s ∈ comboScan fast slow price divs n, s.kind = SigKind.sell ∧ s.sigIdx = i) ↔
      (1 ≤ i ∧ i < n ∧ deathCrossAt fast slow i = true ∧
        ∃ d ∈ divs, d.kind = DivKind.top ∧ d.peak2_idx ≤ i ∧
          i < min (d.peak2_idx + 10) n) := by
  unfold comboScan
  constructor
  · rintro ⟨s, hs, hkind, hidx⟩
    rw [mem_scanAppend] at hs
    obtain ⟨j, hj, hsj⟩ := hs
    rw [mem_range_drop_one] at hj
    rcases (mem_comboSigsAt fast slow price divs n j s).mp hsj with ⟨_, rfl⟩ | ⟨hc, rfl⟩
    · exact absurd hkind (by simp)
    · obtain rfl : j = i := hidx
      rw [Bool.and_eq_true] at hc
      refine ⟨hj.1, hj.2, hc.2, ?_⟩
      rcases List.any_eq_true.mp hc.1 with ⟨d, hd, hdp⟩
      simp only [Bool.and_eq_true, decide_eq_true_eq] at hdp
      exact ⟨d, hd, hdp.1.1, hdp.1.2, hdp.2⟩
  · rintro ⟨h1, h2, hcross, d, hd, hk, hle, hlt⟩
    refine ⟨⟨SigKind.sell, i, idx price i⟩, ?_, rfl, rfl⟩
    rw [mem_scanAppend]
    refine ⟨i, (mem_range_drop_one n i).mpr ⟨h1, h2⟩, ?_⟩
    rw [mem_comboSigsAt]
    right
    refine ⟨?_, rfl⟩
    rw [Bool.and_eq_true]
    refine ⟨List.any_eq_true.mpr ⟨d, hd, ?_⟩, hcross⟩
    simp only [Bool.and_eq_true, decide_eq_true_eq]
    exact ⟨⟨hk, hle⟩, hlt⟩

/-- A buy-side combo signal exists at bar `i` exactly when `i` is a scanned
bar with a golden cross and some bullish divergence whose waiting range
contains `i`. -/
theorem comboScan_buy_mem_iff (fast slow price : List ℚ)
    (divs : List DivergenceData) (n i : ℕ) :
    (∃ s ∈ comboScan fast slow price divs n, s.kind = SigKind.buy ∧ s.sigIdx = i) ↔
      (1 ≤ i ∧ i < n ∧ goldenCrossAt fast slow i = true ∧
        ∃ d ∈ divs, d.kind = DivKind.bottom ∧ d.peak2_idx ≤ i ∧
          i < min (d.peak2_idx + 10) n) := by
  unfold comboScan
  constructor
  · rintro ⟨s, hs, hkind, hidx⟩
    rw [mem_scanAppend] at hs
    obtain ⟨j, hj, hsj⟩ := hs
    rw [mem_range_drop_one] at hj
    rcases (mem_comboSigsAt fast slow price divs n j s).mp hsj with ⟨hc, rfl⟩ | ⟨_, rfl⟩
    · obtain rfl : j = i := hidx
      rw [Bool.and_eq_true] at hc
      refine ⟨hj.1, hj.2, hc.2, ?_⟩
      rcases List.any_eq_true.mp hc.1 with ⟨d, hd, hdp⟩
      simp only [Bool.and_eq_true, decide_eq_true_eq] at hdp
      exact ⟨d, hd, hdp.1.1, hdp.1.2, hdp.2⟩
    · exact absurd hkind (by simp)
  · rintro ⟨h1, h2, hcross, d, hd, hk, hle, hlt⟩
    refine ⟨⟨SigKind.buy, i, idx price i⟩, ?_, rfl, rfl⟩
    rw [mem_scanAppend]
    refine ⟨i, (mem_range_drop_one n i).mpr ⟨h1, h2⟩, ?_⟩
    rw [mem_comboSigsAt]
    left
    refine ⟨?_, rfl⟩
    rw [Bool.and_eq_true]
    refine ⟨List.any_eq_true.mpr ⟨d, hd, ?_⟩, hcross⟩
    simp only [Bool.and_eq_true, decide_eq_true_eq]
    exact ⟨⟨hk, hle⟩, hlt⟩

/-- C9 (confirmed): for each indicator family the golden and death
classifications are mutually exclusive per bar — pointwise on the compared
values, and therefore each per-bar scan step emits at most one signal. -/
theorem c9_cross_classification_mutually_exclusive :
    (∀ pf ps f s : ℚ, ¬(goldenCross pf ps f s = true ∧ deathCross pf ps f s = true)) ∧
    (∀ pf ps f s : Option ℚ, ¬(maGolden pf ps f s = true ∧ maDeath pf ps f s = true)) ∧
    (∀ p c : ℚ, ¬(rsiGolden p c = true ∧ rsiDeath p c = true)) ∧
    (∀ fast slow price : List ℚ, ∀ i : ℕ, (crossSigsAt fast slow price i).length ≤ 1) ∧
    (∀ rsi price : List ℚ, ∀ i : ℕ, (rsiSigsAt rsi price i).length ≤ 1) ∧
    (∀ ma5 ma10 : List (Option ℚ), ∀ price : List ℚ, ∀ i : ℕ,
      (maSigsAt ma5 ma10 price i).length ≤ 1) := by
  refine ⟨goldenCross_deathCross_exclusive, maGolden_maDeath_exclusive,
    rsiGolden_rsiDeath_exclusive, ?_, ?_, ?_⟩
  · intro fast slow price i
    by_cases hg : goldenCrossAt fast slow i = true
    · by_cases hd : deathCrossAt fast slow i = true
      · exact absurd ⟨hg, hd⟩ (goldenCross_deathCross_exclusive _ _ _ _)
      · simp [crossSigsAt, hg, hd]
    · by_cases hd : deathCrossAt fast slow i = true <;> simp [crossSigsAt, hg, hd]
  · intro rsi price i
    by_cases hg : rsiGolden (idx rsi (i - 1)) (idx rsi i) = true
    · by_cases hd : rsiDeath (idx rsi (i - 1)) (idx rsi i) = true
      · exact absurd ⟨hg, hd⟩ (rsiGolden_rsiDeath_exclusive _ _)
      · simp [rsiSigsAt, hg, hd]
    · by_cases hd : rsiDeath (idx rsi (i - 1)) (idx rsi i) = true <;>
        simp [rsiSigsAt, hg, hd]
  · intro ma5 ma10 price i
    by_cases hg : maGolden (oidx ma5 (i - 1)) (oidx ma10 (i - 1)) (oidx ma5 i) (oidx ma10 i) = true
    · by_cases hd : maDeath (oidx ma5 (i - 1)) (oidx ma10 (i - 1)) (oidx ma5 i) (oidx ma10 i) = true
      · exact absurd ⟨hg, hd⟩ (maGolden_maDeath_exclusive _ _ _ _)
      · simp [maSigsAt, hg, hd]
    · by_cases hd : maDeath (oidx ma5 (i - 1)) (oidx ma10 (i - 1)) (oidx ma5 i)
          (oidx ma10 i) = true <;> simp [maSigsAt, hg, hd]

/-- C5 (amended): when the Wilder-smoothed average loss at a valid index
(13 or later) is zero, the RSI value is 100 unless the average gain is also
zero (then it is the neutral 50; it is never NaN or infinite since `fillna`
absorbs the `0/0` path and the `+inf` quotient collapses to `100 - 0`); in
particular on a strictly rising close series the average loss is zero and
the RSI is 100 from index 13 on — not the neutral 50 stated by the claim. -/
theorem c5_rsi_when_avg_loss_zero :
    (∀ (closes : List ℚ) (i : ℕ), 13 ≤ i → avgLossAt closes i = 0 →
        rsiAt closes i = if avgGainAt closes i = 0 then 50 else 100) ∧
    (∀ closes : List ℚ, List.Chain' (· < ·) closes →
        ∀ i : ℕ, 13 ≤ i → i < closes.length →
          avgLossAt closes i = 0 ∧ rsiAt closes i = 100) := by
  refine ⟨rsiAt_of_avgLoss_zero, ?_⟩
  intro closes hmono i h13 hi
  have hz := avgLossAt_zero_of_chain closes hmono i
  have hg := avgGainAt_pos_of_chain closes hmono i (by omega) hi
  exact ⟨hz, by rw [rsiAt_of_avgLoss_zero closes i h13 hz, if_neg (ne_of_gt hg)]⟩

/-- Witness for C5: the strictly rising series 1..20 at index 13. -/
theorem c5_rsi_when_avg_loss_zero_witness :
    avgLossAt c5closes 13 = 0 ∧ rsiAt c5closes 13 = 100 :=
  c5_rsi_when_avg_loss_zero.2 c5closes (by norm_num [c5closes, List.chain'_cons]) 13
    (by decide) (by norm_num [c5closes])

/-- C4 (amended): in the batch combo branches a combo signal is emitted at
bar `i` iff a same-polarity crossover occurs at `i` and some matching
divergence's waiting window `[peak2_idx, peak2_idx + 10)` — ten bar indices,
exclusive at the right edge and capped at the series length — contains `i`;
a crossover exactly at `peak2_idx + 10` therefore yields no combo signal
(and, as shipped, the branch raises `TypeError` before emitting anything,
because of the rejected `window=` keyword). -/
theorem c4_combo_window_is_half_open (bars : List Bar) (i : ℕ) :
    ((∃ s ∈ detectSignalsCore bars Ind.MACD_COMBO,
        s.kind = SigKind.sell ∧ s.sigIdx = i) ↔
      (1 ≤ i ∧ i < bars.length ∧
        deathCrossAt (macdDif (bars.map Bar.close)) (macdDea (bars.map Bar.close)) i
          = true ∧
        ∃ d ∈ detect_macd_divergence bars bars.length,
          d.kind = DivKind.top ∧ d.peak2_idx ≤ i ∧ i < d.peak2_idx + 10)) ∧
    ((∃ s ∈ detectSignalsCore bars Ind.MACD_COMBO,
        s.kind = SigKind.buy ∧ s.sigIdx = i) ↔
      (1 ≤ i ∧ i < bars.length ∧
        goldenCrossAt (macdDif (bars.map Bar.close)) (macdDea (bars.map Bar.close)) i
          = true ∧
        ∃ d ∈ detect_macd_divergence bars bars.length,
          d.kind = DivKind.bottom ∧ d.peak2_idx ≤ i ∧ i < d.peak2_idx + 10)) ∧
    ((∃ s ∈ detectSignalsCore bars Ind.KDJ_COMBO,
        s.kind = SigKind.sell ∧ s.sigIdx = i) ↔
      (1 ≤ i ∧ i < bars.length ∧
        deathCrossAt (kdjK bars) (kdjD bars) i = true ∧
        ∃ d ∈ detect_kdj_divergence bars bars.length,
          d.kind = DivKind.top ∧ d.peak2_idx ≤ i ∧ i < d.peak2_idx + 10)) ∧
    ((∃ s ∈ detectSignalsCore bars Ind.KDJ_COMBO,
        s.kind = SigKind.buy ∧ s.sigIdx = i) ↔
      (1 ≤ i ∧ i < bars.length ∧
        goldenCrossAt (kdjK bars) (kdjD bars) i = true ∧
        ∃ d ∈ detect_kdj_divergence bars bars.length,
          d.kind = DivKind.bottom ∧ d.peak2_idx ≤ i ∧ i < d.peak2_idx + 10)) := by
  refine ⟨?_, ?_, ?_, ?_⟩
  · rw [show detectSignalsCore bars Ind.MACD_COMBO =
        comboScan (macdDif (bars.map Bar.close)) (macdDea (bars.map Bar.close))
          (bars.map Bar.close) (detect_macd_divergence bars bars.length)
          bars.length from rfl,
      comboScan_sell_mem_iff]
    constructor
    · rintro ⟨h1, h2, hc, d, hd, hk, hle, hlt⟩
      exact ⟨h1, h2, hc, d, hd, hk, hle, by omega⟩
    · rintro ⟨h1, h2, hc, d, hd, hk, hle, hlt⟩
      exact ⟨h1, h2, hc, d, hd, hk, hle, by omega⟩
  · rw [show detectSignalsCore bars Ind.MACD_COMBO =
        comboScan (macdDif (bars.map Bar.close)) (macdDea (bars.map Bar.close))
          (bars.map Bar.close) (detect_macd_divergence bars bars.length)
          bars.length from rfl,
      comboScan_buy_mem_iff]
    constructor
    · rintro ⟨h1, h2, hc, d, hd, hk, hle, hlt⟩
      exact ⟨h1, h2, hc, d, hd, hk, hle, by omega⟩
    · rintro ⟨h1, h2, hc, d, hd, hk, hle, hlt⟩
      exact ⟨h1, h2, hc, d, hd, hk, hle, by omega⟩
  · rw [show detectSignalsCore bars Ind.KDJ_COMBO =
        comboScan (kdjK bars) (kdjD bars) (bars.map Bar.close)
          (detect_kdj_divergence bars bars.length) bars.length from rfl,
      comboScan_sell_mem_iff]
    constructor
    · rintro ⟨h1, h2, hc, d, hd, hk, hle, hlt⟩
      exact ⟨h1, h2, hc, d, hd, hk, hle, by omega⟩
    · rintro ⟨h1, h2, hc, d, hd, hk, hle, hlt⟩
      exact ⟨h1, h2, hc, d, hd, hk, hle, by omega⟩
  · rw [show detectSignalsCore bars Ind.KDJ_COMBO =
        comboScan (kdjK bars) (kdjD bars) (bars.map Bar.close)
          (detect_kdj_divergence bars bars.length) bars.length from rfl,
      comboScan_buy_mem_iff]
    constructor
    · rintro ⟨h1, h2, hc, d, hd, hk, hle, hlt⟩
      exact ⟨h1, h2, hc, d, hd, hk, hle, by omega⟩
    · rintro ⟨h1, h2, hc, d, hd, hk, hle, hlt⟩
      exact ⟨h1, h2, hc, d, hd, hk, hle, by omega⟩

/-- Peeling one pair off the compounded product. -/
theorem tradeProd_cons (p : ℚ × ℚ) (ps : List (ℚ × ℚ)) :
    tradeProd (p :: ps) = (p.2 / p.1) * tradeProd ps := by
  simp [tradeProd]

/-- The compounded product of positive-price pairs is positive. -/
theorem tradeProd_pos (ps : List (ℚ × ℚ)) (h : ∀ p ∈ ps, 0 < p.1 ∧ 0 < p.2) :
    0 < tradeProd ps := by
  unfold tradeProd
  apply List.prod_pos
  intro x hx
  simp only [List.mem_map] at hx
  obtain ⟨p, hp, rfl⟩ := hx
  exact div_pos (h p hp).2 (h p hp).1

/-- Every entry and exit price extracted by the pairing, and the trailing
open entry, are prices of the signal list (hence positive when those are). -/
theorem pairTradesGo_pos (sigs : List Sig) :
    ∀ cur : Option ℚ, (∀ s ∈ sigs, 0 < s.price) →
      (∀ e, cur = some e → 0 < e) →
      (∀ p ∈ (pairTradesGo sigs cur).1, 0 < p.1 ∧ 0 < p.2) ∧
      (∀ e, (pairTradesGo sigs cur).2 = some e → 0 < e) := by
  induction sigs with
  | nil =>
    intro cur _ hcur
    exact ⟨by simp [pairTradesGo], by simpa [pairTradesGo] using hcur⟩
  | cons s rest ih =>
    intro cur hp hcur
    have hps : 0 < s.price := hp s (by simp)
    have hrest : ∀ x ∈ rest, 0 < x.price := fun x hx => hp x (by simp [hx])
    cases hk : s.kind with
    | buy =>
      cases cur with
      | none =>
        simpa [pairTradesGo, hk] using
          ih (some s.price) hrest (fun e he => by cases he; exact hps)
      | some e0 =>
        simpa [pairTradesGo, hk] using ih (some e0) hrest hcur
    | sell =>
      cases cur with
      | none => simpa [pairTradesGo, hk] using ih none hrest (by simp)
      | some e0 =>
        have he0 : 0 < e0 := hcur e0 rfl
        have hr := ih none hrest (by simp)
        constructor
        · intro p hpmem
          simp only [pairTradesGo, hk] at hpmem
          rcases List.mem_cons.mp hpmem with rfl | hpm
          · exact ⟨he0, hps⟩
          · exact hr.1 p hpm
        · intro e he
          simp only [pairTradesGo, hk] at he
          exact hr.2 e he

/-- Characterization of the capital-compounding pass: started flat with
positive capital, or long with a positive position opened at a positive
entry, the fold ends with the capital multiplied by the compounded product
of the closed pairs (divided by the open entry while still long) and the
trade count advanced by the number of closed pairs. -/
theorem tradeStep_run :
    ∀ (sigs : List Sig), (∀ s ∈ sigs, 0 < s.price) →
    ((∀ (c : ℚ) (t : ℕ), 0 < c →
      sigs.foldl tradeStep (c, 0, t) =
        (match pairTradesGo sigs none with
         | (ps, none) => (c * tradeProd ps, 0, t + ps.length)
         | (ps, some e) => (0, c * tradeProd ps / e, t + ps.length))) ∧
     (∀ (pos e : ℚ) (t : ℕ), 0 < pos → 0 < e →
      sigs.foldl tradeStep (0, pos, t) =
        (match pairTradesGo sigs (some e) with
         | (ps, none) => (pos * e * tradeProd ps, 0, t + ps.length)
         | (ps, some e2) => (0, pos * e * tradeProd ps / e2, t + ps.length)))) := by
  intro sigs
  induction sigs with
  | nil =>
    intro _
    refine ⟨?_, ?_⟩
    · intro c t hc
      simp [pairTradesGo, tradeProd]
    · intro pos e t hpos he
      have hpe : pos * e / e = pos := mul_div_cancel_right₀ pos (ne_of_gt he)
      simp [pairTradesGo, tradeProd, hpe]
  | cons s rest ih =>
    intro hp
    have hps : 0 < s.price := hp s (by simp)
    have hrest : ∀ x ∈ rest, 0 < x.price := fun x hx => hp x (by simp [hx])
    refine ⟨?_, ?_⟩
    · intro c t hc
      cases hk : s.kind with
      | buy =>
        have hstep : tradeStep (c, 0, t) s = (0, c / s.price, t) := by
          simp [tradeStep, hk]
        rw [List.foldl_cons, hstep,
          (ih hrest).2 (c / s.price) s.price t (div_pos hc hps) hps]
        have hpg : pairTradesGo (s :: rest) none = pairTradesGo rest (some s.price) := by
          simp [pairTradesGo, hk]
        rw [hpg]
        rcases hrw : pairTradesGo rest (some s.price) with ⟨ps, op⟩
        cases op with
        | none =>
          simp only [div_mul_cancel₀ c (ne_of_gt hps)]
        | some e2 =>
          simp only [div_mul_cancel₀ c (ne_of_gt hps)]
      | sell =>
        have hstep : tradeStep (c, 0, t) s = (c, 0, t) := by
          simp [tradeStep, hk]
        have hpg : pairTradesGo (s :: rest) none = pairTradesGo rest none := by
          simp [pairTradesGo, hk]
        rw [List.foldl_cons, hstep, hpg]
        exact (ih hrest).1 c t hc
    · intro pos e t hpos he
      cases hk : s.kind with
      | buy =>
        have hstep : tradeStep (0, pos, t) s = (0, pos, t) := by
          simp [tradeStep, hk, ne_of_gt hpos]
        have hpg : pairTradesGo (s :: rest) (some e) = pairTradesGo rest (some e) := by
          simp [pairTradesGo, hk]
        rw [List.foldl_cons, hstep, hpg]
        exact (ih hrest).2 pos e t hpos he
      | sell =>
        have hstep : tradeStep (0, pos, t) s = (pos * s.price, 0, t + 1) := by
          simp [tradeStep, hk, hpos]
        rw [List.foldl_cons, hstep,
          (ih hrest).1 (pos * s.price) (t + 1) (mul_pos hpos hps)]
        rcases hrw : pairTradesGo rest none with ⟨ps, op⟩
        have hpg : pairTradesGo (s :: rest) (some e) = ((e, s.price) :: ps, op) := by
          simp [pairTradesGo, hk, hrw]
        rw [hpg]
        cases op with
        | none =>
          simp only [tradeProd_cons, List.length_cons, Prod.mk.injEq]
          refine ⟨?_, by first | trivial | omega, by first | trivial | omega⟩
          field_simp
          ring
        | some e2 =>
          simp only [tradeProd_cons, List.length_cons, Prod.mk.injEq]
          refine ⟨by first | trivial | omega, ?_, by first | trivial | omega⟩
          have hnum : pos * e * (s.price / e * tradeProd ps)
              = pos * s.price * tradeProd ps := by
            field_simp
            ring
          rw [hnum]

/-- Characterization of the win-counting pass: the wins counter advances by
exactly the number of closed pairs whose exit exceeds their entry. -/
theorem winStep_run :
    ∀ (sigs : List Sig), (∀ s ∈ sigs, 0 < s.price) →
    ((∀ (c d : ℚ) (w : ℕ), 0 < c →
        (sigs.foldl winStep (c, 0, d, w)).2.2.2 =
          w + specWins (pairTradesGo sigs none).1) ∧
     (∀ (pos e : ℚ) (w : ℕ), 0 < pos → 0 < e →
        (sigs.foldl winStep (0, pos, e, w)).2.2.2 =
          w + specWins (pairTradesGo sigs (some e)).1)) := by
  intro sigs
  induction sigs with
  | nil =>
    intro _
    constructor
    · intro c d w hc; simp [pairTradesGo, specWins]
    · intro pos e w hpos he; simp [pairTradesGo, specWins]
  | cons s rest ih =>
    intro hp
    have hps : 0 < s.price := hp s (by simp)
    have hrest : ∀ x ∈ rest, 0 < x.price := fun x hx => hp x (by simp [hx])
    constructor
    · intro c d w hc
      cases hk : s.kind with
      | buy =>
        have hstep : winStep (c, 0, d, w) s = (0, c / s.price, s.price, w) := by
          simp [winStep, hk]
        have hpg : pairTradesGo (s :: rest) none = pairTradesGo rest (some s.price) := by
          simp [pairTradesGo, hk]
        rw [List.foldl_cons, hstep, hpg]
        exact (ih hrest).2 (c / s.price) s.price w (div_pos hc hps) hps
      | sell =>
        have hstep : winStep (c, 0, d, w) s = (c, 0, d, w) := by
          simp [winStep, hk]
        have hpg : pairTradesGo (s :: rest) none = pairTradesGo rest none := by
          simp [pairTradesGo, hk]
        rw [List.foldl_cons, hstep, hpg]
        exact (ih hrest).1 c d w hc
    · intro pos e w hpos he
      cases hk : s.kind with
      | buy =>
        have hstep : winStep (0, pos, e, w) s = (0, pos, e, w) := by
          simp [winStep, hk, ne_of_gt hpos]
        have hpg : pairTradesGo (s :: rest) (some e) = pairTradesGo rest (some e) := by
          simp [pairTradesGo, hk]
        rw [List.foldl_cons, hstep, hpg]
        exact (ih hrest).2 pos e w hpos he
      | sell =>
        have hwin : (if 0 < (s.price - e) / e then 1 else 0) =
            (if e < s.price then 1 else 0 : ℕ) := by
          refine if_congr ?_ rfl rfl
          constructor
          · intro h
            have h2 := mul_pos h he
            rw [div_mul_cancel₀ _ (ne_of_gt he)] at h2
            linarith
          · intro h
            exact div_pos (by linarith) he
        have hstep : winStep (0, pos, e, w) s =
            (pos * s.price, 0, e, w + (if e < s.price then 1 else 0)) := by
          simp only [winStep, hk, if_pos hpos]
          rw [hwin]
        rcases hrw : pairTradesGo rest none with ⟨ps, op⟩
        have hpg : pairTradesGo (s :: rest) (some e) = ((e, s.price) :: ps, op) := by
          simp [pairTradesGo, hk, hrw]
        rw [List.foldl_cons, hstep, hpg,
          (ih hrest).1 (pos * s.price) e (w + (if e < s.price then 1 else 0))
            (mul_pos hpos hps)]
        simp only [hrw, specWins, List.countP_cons, decide_eq_true_eq]
        by_cases hc : e < s.price <;> simp [hc] <;> omega

/-- C1 (amended): the statistics record reports only `win_rate`, `trades`
and `total_return` — no average return — and, for positive signal prices,
`total_return` is the compounded product return of sequentially reinvested
capital over the closed buy/sell pairs, with a trailing open position valued
at the final close as a further multiplicative factor; `trades` counts
exactly the closed pairs and `win_rate` is the percentage of closed pairs
whose exit exceeds their entry. -/
theorem c1_stats_compound_not_sum (sigs : List Sig) (lastClose : ℚ)
    (hp : ∀ s ∈ sigs, 0 < s.price) :
    statsFromSignals sigs lastClose =
      { win_rate :=
          if 0 < (pairTrades sigs).1.length then
            (specWins (pairTrades sigs).1 : ℚ) / ((pairTrades sigs).1.length : ℚ) * 100
          else 0
        trades := (pairTrades sigs).1.length
        total_return :=
          (tradeProd (pairTrades sigs).1 * openFactor (pairTrades sigs).2 lastClose
            - 1) * 100 } := by
  obtain ⟨hflat, _⟩ := tradeStep_run sigs hp
  obtain ⟨hwflat, _⟩ := winStep_run sigs hp
  have hppos := pairTradesGo_pos sigs none hp (by simp)
  have hfold := hflat 10000 0 (by norm_num)
  have hwfold := hwflat 10000 0 0 (by norm_num)
  unfold pairTrades
  unfold statsFromSignals
  rcases hrw : pairTradesGo sigs none with ⟨ps, op⟩
  rw [hrw] at hfold hwfold hppos
  have hprod : 0 < tradeProd ps := tradeProd_pos ps (by simpa using hppos.1)
  cases op with
  | none =>
    rw [hfold]
    simp only [hwfold, openFactor, Stats.mk.injEq, lt_self_iff_false, if_false,
      Nat.zero_add, mul_one]
    refine ⟨by trivial, by trivial, ?_⟩
    field_simp
    ring
  | some e =>
    have he : 0 < e := hppos.2 e (by simp)
    have hpose : 0 < 10000 * tradeProd ps / e := by positivity
    rw [hfold]
    simp only [hwfold, openFactor, Stats.mk.injEq, if_pos hpose, Nat.zero_add]
    refine ⟨by trivial, by trivial, ?_⟩
    field_simp
    ring

/-- Witness for C1: one completed trade bought at 100 and sold at 200, with
final close 200 — the record is fully determined by the closed pair. -/
theorem c1_stats_compound_not_sum_witness :
    statsFromSignals c1sigs 200 =
      { win_rate :=
          if 0 < (pairTrades c1sigs).1.length then
            (specWins (pairTrades c1sigs).1 : ℚ) / ((pairTrades c1sigs).1.length : ℚ)
              * 100
          else 0
        trades := (pairTrades c1sigs).1.length
        total_return :=
          (tradeProd (pairTrades c1sigs).1 * openFactor (pairTrades c1sigs).2 200
            - 1) * 100 } :=
  c1_stats_compound_not_sum c1sigs 200 (by with_unfolding_all decide)

/-- C10 (confirmed): price-change detection returns a signal exactly when
the previous close is nonzero and the absolute percentage change meets the
threshold; a zero previous close short-circuits to no signal before the
division. -/
theorem c10_price_change_zero_guard (t c p : ℚ) :
    (detect_price_change t c p).isSome =
      (decide (p ≠ 0) && decide (t ≤ |(c - p) / p * 100|)) := by
  unfold detect_price_change
  by_cases hp : p = 0
  · simp [hp]
  · by_cases h1 : t ≤ (c - p) / p * 100
    · have ha : t ≤ |(c - p) / p * 100| := le_trans h1 (le_abs_self _)
      simp [hp, h1, ha]
    · by_cases h2 : (c - p) / p * 100 ≤ -t
      · have ha : t ≤ |(c - p) / p * 100| :=
          le_trans (by linarith) (neg_le_abs ((c - p) / p * 100))
        simp [hp, h1, h2, ha]
      · have ha : ¬ t ≤ |(c - p) / p * 100| := by
          rcases abs_cases ((c - p) / p * 100) with ⟨he, _⟩ | ⟨he, _⟩ <;>
            rw [he] <;> linarith
        simp [hp, h1, h2, ha]

end StockTrade
